import Mathlib

/-!
Verification of the mission-composition engine of the `laat` build tool
(`src/plugins/missions.rs`, `src/config.rs`).

The configuration-tree data model is the `armake2` config model consumed by
the code (`ConfigEntry`, `ConfigArrayElement`, `ConfigClass`, `Config`).
Rust `f32` values are modelled as rationals (`Rat`), so arithmetic is exact;
Rust `HashMap` round-trips (`into_iter().collect()`) are modelled by a
canonical last-wins association list composed with an arbitrary permutation
chosen by the environment, which is exactly the guarantee `std::collections::HashMap`
gives about its iteration order.  A Rust panic (out-of-bounds slice index)
is modelled as `none` / `MErr.panicked`.
-/

namespace Laat

/-- Array elements of the armake2 config model: `ConfigArrayElement` in
`armake2::config`, as used by `missions.rs` (string, float, int, nested array). -/
inductive ConfigArrayElement where
  | StringElement : String → ConfigArrayElement
  | FloatElement : Rat → ConfigArrayElement
  | IntElement : Int → ConfigArrayElement
  | ArrayElement : List ConfigArrayElement → ConfigArrayElement

mutual

/-- Entries of the armake2 config model: scalar values, arrays and classes. -/
inductive ConfigEntry where
  | StringEntry : String → ConfigEntry
  | FloatEntry : Rat → ConfigEntry
  | IntEntry : Int → ConfigEntry
  | ArrayEntry : List ConfigArrayElement → ConfigEntry
  | ClassEntry : ConfigClass → ConfigEntry

/-- A config class: `ConfigClass { parent, is_external, is_deletion, entries }`.
`entries` is an optional ordered list of `(name, entry)` pairs. -/
inductive ConfigClass where
  | mk : String → Bool → Bool → Option (List (String × ConfigEntry)) → ConfigClass

end

/-- Field accessor for `ConfigClass.parent`. -/
def ConfigClass.parent : ConfigClass → String
  | .mk p _ _ _ => p

/-- Field accessor for `ConfigClass.is_external`. -/
def ConfigClass.is_external : ConfigClass → Bool
  | .mk _ e _ _ => e

/-- Field accessor for `ConfigClass.is_deletion`. -/
def ConfigClass.is_deletion : ConfigClass → Bool
  | .mk _ _ d _ => d

/-- Field accessor for `ConfigClass.entries`. -/
def ConfigClass.entries : ConfigClass → Option (List (String × ConfigEntry))
  | .mk _ _ _ es => es

/-- The `EntryList` alias of `missions.rs`:
`type EntryList = Vec<(String, ConfigEntry)>`. -/
abbrev EntryList := List (String × ConfigEntry)

/-- A parsed config tree: armake2 `Config`, whose `inner()` exposes the root class. -/
structure Config where
  inner : ConfigClass

/-- Error model for the fallible operations of `missions.rs`.
`missing` is a boxed-string `Err` (the code errors with string messages);
`panicked` models a Rust panic (used for the out-of-bounds slice index in
`offset_classes`), which is a distinct failure mode from a returned `Err`. -/
inductive MErr where
  | missing : String → MErr
  | panicked : MErr
  deriving DecidableEq

/-- The `Composition` struct of `missions.rs`:
`{ header: Config, composition: Config, offset: (f32, f32, f32) }`. -/
structure Composition where
  header : Config
  composition : Config
  offset : Rat × Rat × Rat

/-- The `Mission` struct of `missions.rs`:
`{ map_name, mission_name, prefix, sqm: Config }`
(`prefix` is a Lean keyword, hence the trailing underscore). -/
structure Mission where
  map_name : String
  mission_name : String
  prefix_ : String
  sqm : Config

/-- The `add_to_element` function of `missions.rs` (lines 263–274): only
`FloatElement` is shifted by `increment`; string, int and nested-array
elements are returned unchanged. -/
def add_to_element (element : ConfigArrayElement) (increment : Rat) : ConfigArrayElement :=
  match element with
  | .StringElement s => .StringElement s
  | .FloatElement f => .FloatElement (f + increment)
  | .IntElement i => .IntElement i
  | .ArrayElement a => .ArrayElement a

/-- The local `offsets` array of `offset_classes`:
`let offsets = [off.0, off.1, off.2]` (a fixed `[f32; 3]`). -/
def offs (off : Rat × Rat × Rat) : List Rat := [off.1, off.2.1, off.2.2]

/-- The element mapping of `offset_classes` over a `position` array:
`elements.iter_mut().enumerate().map(|(idx, el)| add_to_element(el.clone(), offsets[idx]))`.
`offsets[idx]` is a fixed-size-3 slice index, so `idx ≥ 3` panics: modelled by
`none`. -/
def offsetElements (off : Rat × Rat × Rat) : Nat → List ConfigArrayElement → Option (List ConfigArrayElement)
  | _, [] => some []
  | idx, el :: rest =>
      match (offs off)[idx]? with
      | none => none
      | some inc =>
          match offsetElements off (idx + 1) rest with
          | none => none
          | some rest' => some (add_to_element el inc :: rest')

/-- The body of the `PositionInfo` branch of `offset_classes`:
`entries.iter_mut().find(|(name, _)| name == "position").map(...)` — the
first entry named `position` has its array elements shifted (if it is an
array); everything else is untouched. -/
def updatePosition (off : Rat × Rat × Rat) : EntryList → Option EntryList
  | [] => some []
  | (n, e) :: rest =>
      if n == "position" then
        match e with
        | .ArrayEntry els =>
            match offsetElements off 0 els with
            | some els' => some ((n, .ArrayEntry els') :: rest)
            | none => none
        | _ => some ((n, e) :: rest)
      else
        match updatePosition off rest with
        | some rest' => some ((n, e) :: rest')
        | none => none

/-- The `offset_classes` function of `missions.rs` (lines 213–261): walk the
entry list in order; a class named `"PositionInfo"` has its `position` array
shifted via `updatePosition`; any other class is recursed into; non-class
entries pass through.  `none` models a propagating panic. -/
def offset_classes (off : Rat × Rat × Rat) : EntryList → Option EntryList
  | [] => some []
  | (name, .ClassEntry (.mk p ext del es)) :: rest =>
      let entry? : Option ConfigEntry :=
        if name == "PositionInfo" then
          match es with
          | none => some (.ClassEntry (.mk p ext del none))
          | some l =>
              match updatePosition off l with
              | some l' => some (.ClassEntry (.mk p ext del (some l')))
              | none => none
        else
          match es with
          | none => some (.ClassEntry (.mk p ext del none))
          | some l =>
              match offset_classes off l with
              | some l' => some (.ClassEntry (.mk p ext del (some l')))
              | none => none
      match entry?, offset_classes off rest with
      | some e', some rest' => some ((name, e') :: rest')
      | _, _ => none
  | (name, e) :: rest =>
      match offset_classes off rest with
      | some rest' => some ((name, e) :: rest')
      | none => none

/-- Lookup in `entries.into_iter().collect::<HashMap<String, ConfigEntry>>()`:
for duplicate keys later insertions overwrite earlier ones, so `get` returns
the value of the last binding.  `HashMap::get` itself is deterministic. -/
def lastLookup (l : EntryList) (k : String) : Option ConfigEntry :=
  match l with
  | [] => none
  | (n, e) :: rest =>
      match lastLookup rest k with
      | some r => some r
      | none => if n == k then some e else none

/-- The `Composition::get_center` method (lines 163–180): read the top-level
`center` entry of the body tree; succeed only when it is an array of exactly
three float elements. -/
def Composition.get_center (c : Composition) : Except MErr (Rat × Rat × Rat) :=
  match c.composition.inner.entries with
  | some entries =>
      match lastLookup entries "center" with
      | some (.ArrayEntry [.FloatElement x, .FloatElement y, .FloatElement z]) =>
          .ok (x, y, z)
      | _ => .error (.missing "Failed to get center[]")
  | none => .error (.missing "Failed to get center[]")

/-- The `Composition::get_offset` method (lines 181–186): component-wise sum
of `get_center` and the configured offset. -/
def Composition.get_offset (c : Composition) : Except MErr (Rat × Rat × Rat) :=
  match c.get_center with
  | .error e => .error e
  | .ok (x1, y1, z1) =>
      .ok (x1 + c.offset.1, y1 + c.offset.2.1, z1 + c.offset.2.2)

/-- The `Composition::get_offseted_items` method (lines 189–204): read the
top-level `items` class of the body tree and pass its entries through
`offset_classes` at the total offset. -/
def Composition.get_offseted_items (c : Composition) : Except MErr EntryList :=
  match c.composition.inner.entries with
  | some entries =>
      match lastLookup entries "items" with
      | some (.ClassEntry items) =>
          match items.entries with
          | some es =>
              match c.get_offset with
              | .error e => .error e
              | .ok off =>
                  match offset_classes off es with
                  | some r => .ok r
                  | none => .error .panicked
          | none => .error (.missing "Failed to get offseted items")
      | _ => .error (.missing "Failed to get offseted items")
  | none => .error (.missing "Failed to get offseted items")

/-- In-place association-list insert: the contents of a Rust
`HashMap::insert` on a map represented canonically as a key-unique list. -/
def assocInsert (k : String) (v : ConfigEntry) : EntryList → EntryList
  | [] => [(k, v)]
  | (k', v') :: rest =>
      if k' == k then (k, v) :: rest else (k', v') :: assocInsert k v rest

/-- Canonical contents of `l.into_iter().collect::<HashMap<String, ConfigEntry>>()`:
inserted in list order, so duplicate keys keep the last value.  The result is
key-unique; the order in which `HashMap::into_iter` later yields these pairs
is arbitrary and is modelled separately by a permutation parameter. -/
def hashMapOfList (l : EntryList) : EntryList :=
  l.foldl (fun acc kv => assocInsert kv.1 kv.2 acc) []

/-- The per-entry body of `Mission::merge_composition`: an entry named
`"Mission"` holding a class gets its entries collected into a `HashMap`,
`"Entities"` inserted (a fresh class with parent `"Mission"`, flags cleared,
entries the offset item list), and the map converted back to a list.  `ord`
models the arbitrary iteration order of `HashMap::into_iter` and ranges over
permutations. -/
def mergeTop (ord : EntryList → EntryList) (items : EntryList) :
    String × ConfigEntry → String × ConfigEntry
  | (name, config) =>
      if name == "Mission" then
        match config with
        | .ClassEntry (.mk p ext del es) =>
            let es' := es.map (fun entries =>
              let entities := ConfigEntry.ClassEntry (.mk "Mission" false false (some items))
              ord (assocInsert "Entities" entities (hashMapOfList entries)))
            (name, .ClassEntry (.mk p ext del es'))
        | _ => (name, config)
      else (name, config)

/-- The `Mission::merge_composition` method (lines 356–390).  The Rust method
mutates `self` and returns `Result<()>`; modelled as returning the result
together with the post-state of the mission.  On an extraction error the
mission is returned in its pre-state, since the `?` on
`composition.get_offseted_items()` returns before any mutation. -/
def Mission.merge_composition (ord : EntryList → EntryList) (m : Mission)
    (composition : Composition) : Except MErr Unit × Mission :=
  match composition.get_offseted_items with
  | .error e => (.error e, m)
  | .ok items =>
      let cls := m.sqm.inner
      let entries' := cls.entries.map (fun entries => entries.map (mergeTop ord items))
      (.ok (), { m with
        sqm := ⟨.mk cls.parent cls.is_external cls.is_deletion entries'⟩ })

mutual

/-- Modelled from the spec: ConfigTree serialize (armake2 `Config::write`,
an external collaborator whose source is not part of this repository) —
array elements written in sequence order, comma separated. -/
def writeArray : List ConfigArrayElement → String
  | [] => ""
  | [e] => writeArrayElement e
  | e :: rest => writeArrayElement e ++ "," ++ writeArray rest

/-- Modelled from the spec: ConfigTree serialize, one array element. -/
def writeArrayElement : ConfigArrayElement → String
  | .StringElement s => "\"" ++ s ++ "\""
  | .FloatElement f => toString f
  | .IntElement i => toString i
  | .ArrayElement a => "\x7b" ++ writeArray a ++ "\x7d"

end

mutual

/-- Modelled from the spec: ConfigTree serialize — entries are written back
in the exact order of the entry list (serialization order is the list order). -/
def writeEntries : EntryList → String
  | [] => ""
  | (n, e) :: rest => writeEntry n e ++ writeEntries rest

/-- Modelled from the spec: ConfigTree serialize, one named entry. -/
def writeEntry (name : String) : ConfigEntry → String
  | .StringEntry s => name ++ "=\"" ++ s ++ "\";"
  | .FloatEntry f => name ++ "=" ++ toString f ++ ";"
  | .IntEntry i => name ++ "=" ++ toString i ++ ";"
  | .ArrayEntry a => name ++ "[]=\x7b" ++ writeArray a ++ "\x7d;"
  | .ClassEntry (.mk p ext del es) =>
      if del then "delete " ++ name ++ ";"
      else if ext then "class " ++ name ++ ";"
      else
        "class " ++ name ++ (if p == "" then "" else ": " ++ p) ++ " \x7b" ++
          (match es with
           | none => ""
           | some l => writeEntries l) ++ "\x7d;"

end

/-- The `Mission::to_sqm` method (lines 393–398): serialize the mission tree
back to text (the root class's entries, via the external writer). -/
def Mission.to_sqm (m : Mission) : String :=
  match m.sqm.inner.entries with
  | none => ""
  | some l => writeEntries l

/-- The `Mission::class_name` method (lines 405–407):
`format!("{}_{}{}", prefix, map_name, mission_name)`. -/
def Mission.class_name (m : Mission) : String :=
  m.prefix_ ++ "_" ++ m.map_name ++ m.mission_name

/-- The `Mission::mission_name()` method (lines 401–403), the spec's
`qualified_name`: `format!("{}.{}", class_name, map_name)`.  Named
`qualified_name` here because the Rust method shares its name with the
`mission_name` field. -/
def Mission.qualified_name (m : Mission) : String :=
  m.class_name ++ "." ++ m.map_name

/-- The `create_missions` function (lines 286–305):
`maps.iter().filter_map(|map| Mission::new(...).ok()).collect()`.
`Mission::new` renders a handlebars template and parses the result (both
external collaborators), so per-map generation is abstracted as `gen`. -/
def create_missions (gen : String → Except String Mission) (maps : List String) :
    List Mission :=
  maps.filterMap (fun map => (gen map).toOption)

/-- Skeleton preservation between an input and an output entry list: equal
length, pointwise equal names, class entries keep `parent`, `is_external`
and `is_deletion` and have `entries` of the same shape (recursively), and
array entries keep their element count. -/
def preservesSkeleton : EntryList → EntryList → Bool
  | [], [] => true
  | (n, .ClassEntry (.mk p ext del es)) :: rest, (n', e') :: rest' =>
      (match e' with
       | .ClassEntry (.mk p' ext' del' es') =>
           n == n' && p == p' && ext == ext' && del == del' &&
           (match es, es' with
            | none, none => true
            | some l, some l' => preservesSkeleton l l'
            | _, _ => false)
       | _ => false) &&
      preservesSkeleton rest rest'
  | (n, .ArrayEntry a) :: rest, (n', e') :: rest' =>
      (match e' with
       | .ArrayEntry a' => n == n' && a.length == a'.length
       | _ => false) &&
      preservesSkeleton rest rest'
  | (n, _) :: rest, (n', _) :: rest' => n == n' && preservesSkeleton rest rest'
  | _, _ => false

/-- Component-wise negation of a 3D offset (the spec's `negate(delta)`). -/
def negate (off : Rat × Rat × Rat) : Rat × Rat × Rat :=
  (-off.1, -off.2.1, -off.2.2)

/-- A composition whose body tree has `center[] = {0,0,0}` and an `items`
class with the given entries, at configured offset `(0,0,0)`. -/
def mkComposition (items : Option EntryList) : Composition :=
  ⟨⟨.mk "" false false none⟩,
   ⟨.mk "" false false (some
     [("center", .ArrayEntry [.FloatElement 0, .FloatElement 0, .FloatElement 0]),
      ("items", .ClassEntry (.mk "" false false items))])⟩,
   (0, 0, 0)⟩

/-- A mission whose `Mission` class already holds an `Intel` entry. -/
def exMission : Mission :=
  ⟨"Altis", "Zeus", "RZ",
   ⟨.mk "" false false (some
     [("Mission", .ClassEntry (.mk "" false false (some
       [("Intel", .ClassEntry (.mk "" false false none))])))])⟩⟩

/-- Input with an all-integer `position` array for the C3 counterexample. -/
def c3Input : EntryList :=
  [("PositionInfo", .ClassEntry (.mk "" false false
    (some [("position", .ArrayEntry [.IntElement 1, .IntElement 2, .IntElement 3])])))]

/-- The output the claim predicts for `c3Input` at delta `(1,2,3)` (integer
elements shifted like floats). -/
def c3Claimed : EntryList :=
  [("PositionInfo", .ClassEntry (.mk "" false false
    (some [("position", .ArrayEntry [.IntElement 2, .IntElement 4, .IntElement 6])])))]

/-- Input fixture for the C4/C5 witnesses: a class nested around a
`PositionInfo` node with float, string and int leaves. -/
def c4In : EntryList :=
  [("Veh", .ClassEntry (.mk "Base" false false (some
    [("PositionInfo", .ClassEntry (.mk "" false false (some
      [("angle", .FloatEntry 9),
       ("position", .ArrayEntry [.FloatElement 5, .StringElement "s", .FloatElement 7])])))]))),
   ("count", .IntEntry 4)]

/-- Expected offset of `c4In` at delta `(1,2,3)`. -/
def c4Out : EntryList :=
  [("Veh", .ClassEntry (.mk "Base" false false (some
    [("PositionInfo", .ClassEntry (.mk "" false false (some
      [("angle", .FloatEntry 9),
       ("position", .ArrayEntry [.FloatElement (5 + 1), .StringElement "s",
         .FloatElement (7 + 3)])])))]))),
   ("count", .IntEntry 4)]

/-- Composition fixture for the C6 witness: `center[] = {100, 200, 7}`,
configured offset `(5, 9, 3)`. -/
def c6Comp : Composition :=
  ⟨⟨.mk "" false false none⟩,
   ⟨.mk "" false false (some
     [("center", .ArrayEntry [.FloatElement 100, .FloatElement 200, .FloatElement 7])])⟩,
   (5, 9, 3)⟩

/-- Item lists for the C7 witness compositions. -/
def itemsA : EntryList := [("ItemA", .ClassEntry (.mk "" false false none))]

/-- Item list of the second composition in the C7 witness. -/
def itemsB : EntryList := [("ItemB", .ClassEntry (.mk "" false false none))]

/-- The `Entities` entry the second C7 merge creates. -/
def c7Entities : ConfigEntry := .ClassEntry (.mk "Mission" false false (some itemsB))

/-- Entries of the `Mission` class of `exMission` after merging the two C7
compositions in order. -/
def c7MissionEntries : EntryList :=
  [("Intel", .ClassEntry (.mk "" false false none)), ("Entities", c7Entities)]

/-- Generator fixture for the C10 witness: the map named `Bad` fails. -/
def c10Gen : String → Except String Mission := fun map =>
  if map == "Bad" then .error "malformed scaffold"
  else .ok ⟨map, "Zeus", "RZ", ⟨.mk "" false false none⟩⟩

end Laat

namespace Laat

theorem preservesSkeleton_refl (l : EntryList) : preservesSkeleton l l = true := by
  match l with
  | [] => simp [preservesSkeleton]
  | (n, e) :: rest =>
    have ih := preservesSkeleton_refl rest
    match e with
    | .ClassEntry (.mk p ext del none) => simp [preservesSkeleton, ih]
    | .ClassEntry (.mk p ext del (some es)) =>
        have ih2 := preservesSkeleton_refl es
        simp [preservesSkeleton, ih, ih2]
    | .StringEntry s => simp [preservesSkeleton, ih]
    | .FloatEntry f => simp [preservesSkeleton, ih]
    | .IntEntry i => simp [preservesSkeleton, ih]
    | .ArrayEntry a => simp [preservesSkeleton, ih]
termination_by sizeOf l

end Laat

namespace Laat

theorem skel_cons_same (n : String) (e : ConfigEntry) (r r' : EntryList)
    (h : preservesSkeleton r r' = true) :
    preservesSkeleton ((n, e) :: r) ((n, e) :: r') = true := by
  match e with
  | .ClassEntry (.mk p ext del none) => simp [preservesSkeleton, h]
  | .ClassEntry (.mk p ext del (some es)) =>
      simp [preservesSkeleton, h, preservesSkeleton_refl es]
  | .StringEntry s => simp [preservesSkeleton, h]
  | .FloatEntry f => simp [preservesSkeleton, h]
  | .IntEntry i => simp [preservesSkeleton, h]
  | .ArrayEntry a => simp [preservesSkeleton, h]

theorem offsetElements_length (off : Rat × Rat × Rat) :
    ∀ (idx : Nat) (els els' : List ConfigArrayElement),
      offsetElements off idx els = some els' → els'.length = els.length := by
  intro idx els
  induction els generalizing idx with
  | nil => intro els' h; simp [offsetElements] at h; subst h; rfl
  | cons el rest ih =>
      intro els' h
      simp only [offsetElements] at h
      match h1 : (offs off)[idx]? with
      | none => rw [h1] at h; simp at h
      | some inc =>
          rw [h1] at h
          match h2 : offsetElements off (idx + 1) rest with
          | none => rw [h2] at h; simp at h
          | some rest' =>
              rw [h2] at h; simp at h
              subst h
              simp [ih (idx + 1) rest' h2]

theorem updatePosition_skel (off : Rat × Rat × Rat) :
    ∀ (l l' : EntryList), updatePosition off l = some l' →
      preservesSkeleton l l' = true := by
  intro l
  induction l with
  | nil => intro l' h; simp [updatePosition] at h; subst h; simp [preservesSkeleton]
  | cons hd rest ih =>
      intro l' h
      obtain ⟨n, e⟩ := hd
      simp only [updatePosition] at h
      by_cases hn : n == "position"
      · rw [if_pos hn] at h
        match e with
        | .ArrayEntry els =>
            simp only [] at h
            match h1 : offsetElements off 0 els with
            | some els' =>
                rw [h1] at h; simp at h; subst h
                simp [preservesSkeleton, preservesSkeleton_refl rest,
                  offsetElements_length off 0 els els' h1]
            | none => rw [h1] at h; simp at h
        | .StringEntry s => simp at h; subst h; exact skel_cons_same _ _ _ _ (preservesSkeleton_refl rest)
        | .FloatEntry f => simp at h; subst h; exact skel_cons_same _ _ _ _ (preservesSkeleton_refl rest)
        | .IntEntry i => simp at h; subst h; exact skel_cons_same _ _ _ _ (preservesSkeleton_refl rest)
        | .ClassEntry c => simp at h; subst h; exact skel_cons_same _ _ _ _ (preservesSkeleton_refl rest)
      · rw [if_neg hn] at h
        match h1 : updatePosition off rest with
        | some rest' =>
            rw [h1] at h; simp at h; subst h
            exact skel_cons_same _ _ _ _ (ih rest' h1)
        | none => rw [h1] at h; simp at h

end Laat

namespace Laat

theorem offset_skel (off : Rat × Rat × Rat) (l l' : EntryList)
    (h : offset_classes off l = some l') : preservesSkeleton l l' = true := by
  match l with
  | [] =>
      simp [offset_classes] at h; subst h; simp [preservesSkeleton]
  | (name, .ClassEntry (.mk p ext del none)) :: rest =>
      simp only [offset_classes, ite_self] at h
      match h2 : offset_classes off rest with
      | some rest' =>
          rw [h2] at h; simp at h; subst h
          exact skel_cons_same _ _ _ _ (offset_skel off rest rest' h2)
      | none => rw [h2] at h; simp at h
  | (name, .ClassEntry (.mk p ext del (some ls))) :: rest =>
      simp only [offset_classes] at h
      by_cases hn : name == "PositionInfo"
      · rw [if_pos hn] at h
        match h1 : updatePosition off ls with
        | some ls' =>
            rw [h1] at h
            match h2 : offset_classes off rest with
            | some rest' =>
                rw [h2] at h; simp at h; subst h
                simp [preservesSkeleton, updatePosition_skel off ls ls' h1,
                  offset_skel off rest rest' h2]
            | none => rw [h2] at h; simp at h
        | none => rw [h1] at h; simp at h
      · rw [if_neg hn] at h
        match h1 : offset_classes off ls with
        | some ls' =>
            rw [h1] at h
            match h2 : offset_classes off rest with
            | some rest' =>
                rw [h2] at h; simp at h; subst h
                simp [preservesSkeleton, offset_skel off ls ls' h1,
                  offset_skel off rest rest' h2]
            | none => rw [h2] at h; simp at h
        | none => rw [h1] at h; simp at h
  | (name, .StringEntry s) :: rest =>
      simp only [offset_classes] at h
      match h2 : offset_classes off rest with
      | some rest' =>
          rw [h2] at h; simp at h; subst h
          exact skel_cons_same _ _ _ _ (offset_skel off rest rest' h2)
      | none => rw [h2] at h; simp at h
  | (name, .FloatEntry f) :: rest =>
      simp only [offset_classes] at h
      match h2 : offset_classes off rest with
      | some rest' =>
          rw [h2] at h; simp at h; subst h
          exact skel_cons_same _ _ _ _ (offset_skel off rest rest' h2)
      | none => rw [h2] at h; simp at h
  | (name, .IntEntry i) :: rest =>
      simp only [offset_classes] at h
      match h2 : offset_classes off rest with
      | some rest' =>
          rw [h2] at h; simp at h; subst h
          exact skel_cons_same _ _ _ _ (offset_skel off rest rest' h2)
      | none => rw [h2] at h; simp at h
  | (name, .ArrayEntry a) :: rest =>
      simp only [offset_classes] at h
      match h2 : offset_classes off rest with
      | some rest' =>
          rw [h2] at h; simp at h; subst h
          exact skel_cons_same _ _ _ _ (offset_skel off rest rest' h2)
      | none => rw [h2] at h; simp at h
termination_by sizeOf l

end Laat

namespace Laat

theorem offs_negate (off : Rat × Rat × Rat) (i : Nat) :
    (offs (negate off))[i]? = ((offs off)[i]?).map (fun d => -d) := by
  match i with
  | 0 => simp [offs, negate]
  | 1 => simp [offs, negate]
  | 2 => simp [offs, negate]
  | n + 3 => simp [offs, negate]

theorem add_to_element_inv (el : ConfigArrayElement) (d : Rat) :
    add_to_element (add_to_element el d) (-d) = el := by
  cases el <;> simp [add_to_element]

theorem offsetElements_inv (off : Rat × Rat × Rat) :
    ∀ (idx : Nat) (els els' : List ConfigArrayElement),
      offsetElements off idx els = some els' →
      offsetElements (negate off) idx els' = some els := by
  intro idx els
  induction els generalizing idx with
  | nil => intro els' h; simp [offsetElements] at h; subst h; simp [offsetElements]
  | cons el rest ih =>
      intro els' h
      simp only [offsetElements] at h
      match h1 : (offs off)[idx]? with
      | none => rw [h1] at h; simp at h
      | some inc =>
          rw [h1] at h
          match h2 : offsetElements off (idx + 1) rest with
          | none => rw [h2] at h; simp at h
          | some rest' =>
              rw [h2] at h; simp at h; subst h
              simp [offsetElements, offs_negate off idx, h1,
                ih (idx + 1) rest' h2, add_to_element_inv]

theorem updatePosition_inv (off : Rat × Rat × Rat) :
    ∀ (l l' : EntryList), updatePosition off l = some l' →
      updatePosition (negate off) l' = some l := by
  intro l
  induction l with
  | nil => intro l' h; simp [updatePosition] at h; subst h; simp [updatePosition]
  | cons hd rest ih =>
      intro l' h
      obtain ⟨n, e⟩ := hd
      simp only [updatePosition] at h
      by_cases hn : n == "position"
      · rw [if_pos hn] at h
        match e with
        | .ArrayEntry els =>
            simp only [] at h
            match h1 : offsetElements off 0 els with
            | some els' =>
                rw [h1] at h; simp at h; subst h
                simp only [updatePosition, if_pos hn, offsetElements_inv off 0 els els' h1]
            | none => rw [h1] at h; simp at h
        | .StringEntry s =>
            simp at h; subst h; simp only [updatePosition, if_pos hn]
        | .FloatEntry f =>
            simp at h; subst h; simp only [updatePosition, if_pos hn]
        | .IntEntry i =>
            simp at h; subst h; simp only [updatePosition, if_pos hn]
        | .ClassEntry c =>
            simp at h; subst h; simp only [updatePosition, if_pos hn]
      · rw [if_neg hn] at h
        match h1 : updatePosition off rest with
        | some rest' =>
            rw [h1] at h; simp at h; subst h
            simp only [updatePosition, if_neg hn, ih rest' h1]
        | none => rw [h1] at h; simp at h

end Laat

namespace Laat

theorem offset_inv (off : Rat × Rat × Rat) (l l' : EntryList)
    (h : offset_classes off l = some l') :
    offset_classes (negate off) l' = some l := by
  match l with
  | [] =>
      simp [offset_classes] at h; subst h; simp [offset_classes]
  | (name, .ClassEntry (.mk p ext del none)) :: rest =>
      simp only [offset_classes, ite_self] at h
      match h2 : offset_classes off rest with
      | some rest' =>
          rw [h2] at h; simp at h; subst h
          simp [offset_classes, ite_self, offset_inv off rest rest' h2]
      | none => rw [h2] at h; simp at h
  | (name, .ClassEntry (.mk p ext del (some ls))) :: rest =>
      simp only [offset_classes] at h
      by_cases hn : name == "PositionInfo"
      · rw [if_pos hn] at h
        match h1 : updatePosition off ls with
        | some ls' =>
            rw [h1] at h
            match h2 : offset_classes off rest with
            | some rest' =>
                rw [h2] at h; simp at h; subst h
                have hn' : name = "PositionInfo" := by simpa using hn
                simp [offset_classes, hn', updatePosition_inv off ls ls' h1,
                  offset_inv off rest rest' h2]
            | none => rw [h2] at h; simp at h
        | none => rw [h1] at h; simp at h
      · rw [if_neg hn] at h
        match h1 : offset_classes off ls with
        | some ls' =>
            rw [h1] at h
            match h2 : offset_classes off rest with
            | some rest' =>
                rw [h2] at h; simp at h; subst h
                have hn' : ¬ name = "PositionInfo" := by simpa using hn
                simp [offset_classes, hn', offset_inv off ls ls' h1,
                  offset_inv off rest rest' h2]
            | none => rw [h2] at h; simp at h
        | none => rw [h1] at h; simp at h
  | (name, .StringEntry s) :: rest =>
      simp only [offset_classes] at h
      match h2 : offset_classes off rest with
      | some rest' =>
          rw [h2] at h; simp at h; subst h
          simp [offset_classes, offset_inv off rest rest' h2]
      | none => rw [h2] at h; simp at h
  | (name, .FloatEntry f) :: rest =>
      simp only [offset_classes] at h
      match h2 : offset_classes off rest with
      | some rest' =>
          rw [h2] at h; simp at h; subst h
          simp [offset_classes, offset_inv off rest rest' h2]
      | none => rw [h2] at h; simp at h
  | (name, .IntEntry i) :: rest =>
      simp only [offset_classes] at h
      match h2 : offset_classes off rest with
      | some rest' =>
          rw [h2] at h; simp at h; subst h
          simp [offset_classes, offset_inv off rest rest' h2]
      | none => rw [h2] at h; simp at h
  | (name, .ArrayEntry a) :: rest =>
      simp only [offset_classes] at h
      match h2 : offset_classes off rest with
      | some rest' =>
          rw [h2] at h; simp at h; subst h
          simp [offset_classes, offset_inv off rest rest' h2]
      | none => rw [h2] at h; simp at h
termination_by sizeOf l

end Laat

namespace Laat

theorem offsetElements_spec (off : Rat × Rat × Rat) :
    ∀ (idx : Nat) (els els' : List ConfigArrayElement),
      offsetElements off idx els = some els' →
      ∀ (i : Nat) (e : ConfigArrayElement), els[i]? = some e →
        ∃ d, (offs off)[idx + i]? = some d ∧ els'[i]? = some (add_to_element e d) := by
  intro idx els
  induction els generalizing idx with
  | nil => intro els' h i e hi; simp at hi
  | cons el rest ih =>
      intro els' h i e hi
      simp only [offsetElements] at h
      match h1 : (offs off)[idx]? with
      | none => rw [h1] at h; simp at h
      | some inc =>
          rw [h1] at h
          match h2 : offsetElements off (idx + 1) rest with
          | none => rw [h2] at h; simp at h
          | some rest' =>
              rw [h2] at h; simp at h; subst h
              match i with
              | 0 =>
                  simp at hi; subst hi
                  exact ⟨inc, by simpa using h1, by simp⟩
              | i + 1 =>
                  simp at hi
                  obtain ⟨d, hd, hd'⟩ := ih (idx + 1) rest' h2 i e hi
                  refine ⟨d, ?_, by simpa using hd'⟩
                  have : idx + (i + 1) = idx + 1 + i := by omega
                  rw [this]; exact hd

theorem updatePosition_append (off : Rat × Rat × Rat)
    (pre post : EntryList) (hpre : ∀ e ∈ pre, e.1 ≠ "position")
    (pos pos' : List ConfigArrayElement)
    (h : offsetElements off 0 pos = some pos') :
    updatePosition off (pre ++ ("position", .ArrayEntry pos) :: post) =
      some (pre ++ ("position", .ArrayEntry pos') :: post) := by
  induction pre with
  | nil =>
      simp only [List.nil_append, updatePosition]
      simp [h]
  | cons hd rest ih =>
      obtain ⟨n, e⟩ := hd
      have hn : ¬ (n == "position") = true := by
        simpa using hpre (n, e) (List.mem_cons_self _ _)
      simp only [List.cons_append, updatePosition, if_neg hn]
      simp [ih (fun e he => hpre e (List.mem_cons_of_mem _ he))]

end Laat

namespace Laat

theorem map_fst_assocInsert (k : String) (v : ConfigEntry) (l : EntryList) :
    (assocInsert k v l).map Prod.fst =
      if k ∈ l.map Prod.fst then l.map Prod.fst else l.map Prod.fst ++ [k] := by
  induction l with
  | nil => simp [assocInsert]
  | cons hd rest ih =>
      obtain ⟨k', v'⟩ := hd
      by_cases hk : k' == k
      · have hk' : k' = k := by simpa using hk
        subst hk'
        simp [assocInsert]
      · have hk' : ¬ k' = k := by simpa using hk
        simp only [assocInsert, if_neg hk, List.map_cons, ih]
        by_cases hmem : k ∈ rest.map Prod.fst
        · simp [hmem, hk', Ne.symm hk']
        · simp [hmem, hk', Ne.symm hk']

theorem nodup_assocInsert (k : String) (v : ConfigEntry) (l : EntryList)
    (h : (l.map Prod.fst).Nodup) : ((assocInsert k v l).map Prod.fst).Nodup := by
  rw [map_fst_assocInsert]
  by_cases hmem : k ∈ l.map Prod.fst
  · simpa [hmem] using h
  · rw [if_neg hmem]
    exact List.Nodup.append h (by simp) (by simpa using hmem)

theorem mem_assocInsert_self (k : String) (v : ConfigEntry) (l : EntryList) :
    (k, v) ∈ assocInsert k v l := by
  induction l with
  | nil => simp [assocInsert]
  | cons hd rest ih =>
      obtain ⟨k', v'⟩ := hd
      by_cases hk : k' == k
      · simp only [assocInsert]
        rw [if_pos hk]
        exact List.mem_cons_self _ _
      · simp only [assocInsert]
        rw [if_neg hk]
        exact List.mem_cons_of_mem _ ih

theorem eq_of_mem_assocInsert (k : String) (v : ConfigEntry) (l : EntryList)
    (hnd : (l.map Prod.fst).Nodup) :
    ∀ e, (k, e) ∈ assocInsert k v l → e = v := by
  induction l with
  | nil =>
      intro e he
      rw [assocInsert] at he
      rcases List.mem_singleton.mp he with h
      exact (Prod.mk.injEq .. ▸ h).2
  | cons hd rest ih =>
      intro e he
      obtain ⟨k', v'⟩ := hd
      simp only [List.map_cons, List.nodup_cons] at hnd
      by_cases hk : k' == k
      · have hk' : k' = k := by simpa using hk
        subst hk'
        rw [assocInsert, if_pos (by simp)] at he
        rcases List.mem_cons.mp he with h | h
        · exact (Prod.mk.injEq .. ▸ h).2
        · exact absurd (by simpa using List.mem_map_of_mem Prod.fst h) hnd.1
      · rw [assocInsert, if_neg hk] at he
        rcases List.mem_cons.mp he with h | h
        · exact absurd (congrArg Prod.fst h).symm (by simpa using hk)
        · exact ih hnd.2 e h

theorem nodup_hashMapOfList (l : EntryList) :
    ((hashMapOfList l).map Prod.fst).Nodup := by
  have main : ∀ (l acc : EntryList), (acc.map Prod.fst).Nodup →
      ((l.foldl (fun acc kv => assocInsert kv.1 kv.2 acc) acc).map Prod.fst).Nodup := by
    intro l
    induction l with
    | nil => intro acc h; simpa using h
    | cons hd rest ih =>
        intro acc h
        simp only [List.foldl_cons]
        exact ih _ (nodup_assocInsert hd.1 hd.2 acc h)
  simpa [hashMapOfList] using main l [] (by simp)

end Laat

namespace Laat

theorem merge_sets_entities (ord : EntryList → EntryList)
    (hord : ∀ l : EntryList, (ord l).Perm l)
    (m : Mission) (B : Composition) (itemsB : EntryList)
    (hB : B.get_offseted_items = .ok itemsB) :
    ∀ top, ((Mission.merge_composition ord m B).2).sqm.inner.entries = some top →
      ∀ mc ∈ top, mc.1 = "Mission" →
        ∀ p ext del l, mc.2 = ConfigEntry.ClassEntry (.mk p ext del (some l)) →
          ("Entities", ConfigEntry.ClassEntry (.mk "Mission" false false (some itemsB))) ∈ l ∧
          ∀ e, ("Entities", e) ∈ l →
            e = ConfigEntry.ClassEntry (.mk "Mission" false false (some itemsB)) := by
  intro top htop mc hmc hname p ext del l hcls
  simp only [Mission.merge_composition, hB, ConfigClass.entries] at htop
  obtain ⟨orig, horig, htop'⟩ := Option.map_eq_some'.mp htop
  subst htop'
  obtain ⟨mc0, hmc0, hmc0'⟩ := List.mem_map.mp hmc
  obtain ⟨name0, cfg0⟩ := mc0
  by_cases hn : name0 == "Mission"
  · match cfg0 with
    | .ClassEntry (.mk p0 ext0 del0 none) =>
        rw [← hmc0'] at hcls
        simp [mergeTop, hn] at hcls
    | .ClassEntry (.mk p0 ext0 del0 (some es)) =>
        rw [← hmc0'] at hcls
        simp [mergeTop, hn] at hcls
        obtain ⟨hp, hext, hdel, hl⟩ := hcls
        have hperm := hord (assocInsert "Entities"
          (ConfigEntry.ClassEntry (.mk "Mission" false false (some itemsB))) (hashMapOfList es))
        constructor
        · rw [← hl]
          exact hperm.mem_iff.mpr (mem_assocInsert_self _ _ _)
        · intro e he
          rw [← hl] at he
          exact eq_of_mem_assocInsert _ _ _ (nodup_hashMapOfList es) e (hperm.mem_iff.mp he)
    | .StringEntry s =>
        rw [← hmc0'] at hcls
        simp [mergeTop, hn] at hcls
    | .FloatEntry f =>
        rw [← hmc0'] at hcls
        simp [mergeTop, hn] at hcls
    | .IntEntry i =>
        rw [← hmc0'] at hcls
        simp [mergeTop, hn] at hcls
    | .ArrayEntry a =>
        rw [← hmc0'] at hcls
        simp [mergeTop, hn] at hcls
  · rw [← hmc0'] at hname
    match cfg0 with
    | .ClassEntry (.mk p0 ext0 del0 es0) =>
        simp [mergeTop, hn] at hname
        exact absurd hname (by simpa using hn)
    | .StringEntry s =>
        simp [mergeTop, hn] at hname
        exact absurd hname (by simpa using hn)
    | .FloatEntry f =>
        simp [mergeTop, hn] at hname
        exact absurd hname (by simpa using hn)
    | .IntEntry i =>
        simp [mergeTop, hn] at hname
        exact absurd hname (by simpa using hn)
    | .ArrayEntry a =>
        simp [mergeTop, hn] at hname
        exact absurd hname (by simpa using hn)

end Laat

namespace Laat

/-- C1: merging introduces the iteration order of `HashMap::into_iter` into
the `Mission` class's child entries; two legitimate iteration orders of the
same map contents (both permutations, as witnessed by the first two
conjuncts) make `merge_composition` followed by `to_sqm` produce different
bytes on equal inputs, so the output is not a deterministic function of the
inputs. -/
theorem merge_then_serialize_order_dependent :
    (∀ l : EntryList, (id l).Perm l) ∧
    (∀ l : EntryList, l.reverse.Perm l) ∧
    Mission.to_sqm (Mission.merge_composition id exMission (mkComposition (some []))).2 ≠
      Mission.to_sqm (Mission.merge_composition List.reverse exMission (mkComposition (some []))).2 := by
  refine ⟨fun l => List.Perm.refl l, fun l => List.reverse_perm l, ?_⟩
  simp [Mission.merge_composition, exMission, mkComposition, Composition.get_offseted_items,
    Composition.get_offset, Composition.get_center, lastLookup, offset_classes,
    hashMapOfList, assocInsert, mergeTop, Mission.to_sqm, writeEntries, writeEntry,
    ConfigClass.entries, ConfigClass.parent, ConfigClass.is_external, ConfigClass.is_deletion]

/-- C2: the offset transformer is not total: a `PositionInfo` class whose
`position` array has four elements makes `offset_classes` index the
three-component `offsets` array out of bounds (a Rust panic, modelled as
`none`), while an array of at most three elements is processed without
failure. -/
theorem offset_classes_panics_past_three_elements :
    offset_classes (0, 0, 0)
      [("PositionInfo", .ClassEntry (.mk "" false false
        (some [("position", .ArrayEntry
          [.FloatElement 0, .FloatElement 0, .FloatElement 0, .FloatElement 0])])))] = none ∧
    offset_classes (0, 0, 0)
      [("PositionInfo", .ClassEntry (.mk "" false false
        (some [("position", .ArrayEntry [.FloatElement 1, .FloatElement 2])])))] =
      some [("PositionInfo", .ClassEntry (.mk "" false false
        (some [("position", .ArrayEntry [.FloatElement 1, .FloatElement 2])])))] := by
  constructor
  · simp [offset_classes, updatePosition, offsetElements, offs]
  · simp [offset_classes, updatePosition, offsetElements, offs, add_to_element]

end Laat

namespace Laat

/-- C3 counterexample: integer elements of a `position` array are not
shifted: at delta `(1,2,3)` the all-integer position `[1,2,3]` comes back
unchanged, not as the claimed `[2,4,6]`. -/
theorem offset_int_elements_unchanged :
    offset_classes (1, 2, 3) c3Input = some c3Input ∧
    offset_classes (1, 2, 3) c3Input ≠ some c3Claimed := by
  have h : offset_classes (1, 2, 3) c3Input = some c3Input := by
    simp [c3Input, offset_classes, updatePosition, offsetElements, offs, add_to_element]
  refine ⟨h, ?_⟩
  rw [h]
  intro hc
  simp [c3Input, c3Claimed] at hc

/-- C3 (amended): on a `PositionInfo` class whose `position` child is an
array, each float element at index `i` is replaced by adding the `i`-th
delta component, while integer, string and nested-array elements are left
unchanged (given the element mapping does not panic). -/
theorem offset_position_floats_shifted (off : Rat × Rat × Rat) (p : String) (ext del : Bool)
    (pre post : EntryList) (hpre : ∀ e ∈ pre, e.1 ≠ "position")
    (pos pos' : List ConfigArrayElement)
    (h : offsetElements off 0 pos = some pos') :
    offset_classes off [("PositionInfo",
        .ClassEntry (.mk p ext del (some (pre ++ ("position", .ArrayEntry pos) :: post))))] =
      some [("PositionInfo",
        .ClassEntry (.mk p ext del (some (pre ++ ("position", .ArrayEntry pos') :: post))))] ∧
    pos'.length = pos.length ∧
    (∀ (i : Nat) (x : Rat), pos[i]? = some (ConfigArrayElement.FloatElement x) →
      ∃ d, (offs off)[i]? = some d ∧ pos'[i]? = some (ConfigArrayElement.FloatElement (x + d))) ∧
    (∀ (i : Nat) (e : ConfigArrayElement), pos[i]? = some e → (∀ x, e ≠ ConfigArrayElement.FloatElement x) →
      pos'[i]? = some e) := by
  refine ⟨?_, offsetElements_length off 0 pos pos' h, ?_, ?_⟩
  · have hup := updatePosition_append off pre post hpre pos pos' h
    simp [offset_classes, hup]
  · intro i x hi
    obtain ⟨d, hd, hd'⟩ := offsetElements_spec off 0 pos pos' h i _ hi
    exact ⟨d, by simpa using hd, by simpa [add_to_element] using hd'⟩
  · intro i e hi hne
    obtain ⟨d, hd, hd'⟩ := offsetElements_spec off 0 pos pos' h i e hi
    have hadd : add_to_element e d = e := by
      match e with
      | .FloatElement x => exact absurd rfl (hne x)
      | .StringElement s => rfl
      | .IntElement n => rfl
      | .ArrayElement a => rfl
    rw [hadd] at hd'
    exact hd'

/-- C3 amendment witness at delta `(1,2,3)` on position `[5.0, "s", 7]`. -/
theorem offset_position_floats_shifted_witness :
    offset_classes (1, 2, 3) [("PositionInfo",
        .ClassEntry (.mk "" false false (some ([("a", .IntEntry 0)] ++
          ("position", .ArrayEntry [.FloatElement 5, .StringElement "s", .IntElement 7]) :: []))))] =
      some [("PositionInfo",
        .ClassEntry (.mk "" false false (some ([("a", .IntEntry 0)] ++
          ("position", .ArrayEntry [.FloatElement (5 + 1), .StringElement "s", .IntElement 7]) :: []))))] ∧
    ([ConfigArrayElement.FloatElement (5 + 1), .StringElement "s", .IntElement 7] :
        List ConfigArrayElement).length =
      ([ConfigArrayElement.FloatElement 5, .StringElement "s", .IntElement 7] :
        List ConfigArrayElement).length ∧
    (∀ (i : Nat) (x : Rat), ([ConfigArrayElement.FloatElement 5, .StringElement "s", .IntElement 7] :
        List ConfigArrayElement)[i]? = some (ConfigArrayElement.FloatElement x) →
      ∃ d, (offs (1, 2, 3))[i]? = some d ∧
        ([ConfigArrayElement.FloatElement (5 + 1), .StringElement "s", .IntElement 7] :
          List ConfigArrayElement)[i]? = some (ConfigArrayElement.FloatElement (x + d))) ∧
    (∀ (i : Nat) (e : ConfigArrayElement), ([ConfigArrayElement.FloatElement 5, .StringElement "s", .IntElement 7] :
        List ConfigArrayElement)[i]? = some e →
      (∀ x, e ≠ ConfigArrayElement.FloatElement x) →
      ([ConfigArrayElement.FloatElement (5 + 1), .StringElement "s", .IntElement 7] :
        List ConfigArrayElement)[i]? = some e) :=
  offset_position_floats_shifted (1, 2, 3) "" false false
    [("a", .IntEntry 0)] [] (by simp)
    [.FloatElement 5, .StringElement "s", .IntElement 7]
    [.FloatElement (5 + 1), .StringElement "s", .IntElement 7]
    (by simp [offsetElements, offs, add_to_element])

end Laat

namespace Laat

/-- C4: whenever the offset transformer returns a result, it preserves the
name of every entry (hence the length and order of every entry list at any
depth), the `parent`, `is_external` and `is_deletion` fields of every class
node, and the element count of every array entry. -/
theorem offset_classes_preserves_skeleton (off : Rat × Rat × Rat) (l l' : EntryList)
    (h : offset_classes off l = some l') : preservesSkeleton l l' = true :=
  offset_skel off l l' h

/-- C4 witness on a nested two-level input. -/
theorem offset_classes_preserves_skeleton_witness :
    preservesSkeleton c4In c4Out = true :=
  offset_classes_preserves_skeleton (1, 2, 3) c4In c4Out
    (by simp [c4In, c4Out, offset_classes, updatePosition, offsetElements, offs, add_to_element])

/-- C5: applying the offset transformer with a delta and then with the
component-wise negation of the delta returns the original entry list, up to
nothing at all: over the rational model of `f32` the round trip is exact. -/
theorem offset_classes_negate_inverse (off : Rat × Rat × Rat) (l l' : EntryList)
    (h : offset_classes off l = some l') :
    offset_classes (negate off) l' = some l :=
  offset_inv off l l' h

/-- C5 witness on a nested two-level input. -/
theorem offset_classes_negate_inverse_witness :
    offset_classes (negate (1, 2, 3)) c4Out = some c4In :=
  offset_classes_negate_inverse (1, 2, 3) c4In c4Out
    (by simp [c4In, c4Out, offset_classes, updatePosition, offsetElements, offs, add_to_element])

end Laat

namespace Laat

/-- C6: `get_offset` returns the component-wise sum of the body tree's
`center` triple and the configured offset; it fails exactly when the
reference-point lookup fails, and that lookup succeeds with `(x, y, z)`
exactly when the top-level `center` entry is present and is an array of
exactly the three float elements `x`, `y`, `z`. -/
theorem get_offset_spec (c : Composition) :
    (∀ x y z, c.get_center = .ok (x, y, z) →
      c.get_offset = .ok (x + c.offset.1, y + c.offset.2.1, z + c.offset.2.2)) ∧
    ((∃ e, c.get_offset = .error e) ↔ (∃ e, c.get_center = .error e)) ∧
    (∀ x y z, c.get_center = .ok (x, y, z) ↔
      (∃ entries, c.composition.inner.entries = some entries ∧
        lastLookup entries "center" =
          some (.ArrayEntry [.FloatElement x, .FloatElement y, .FloatElement z]))) := by
  refine ⟨?_, ?_, ?_⟩
  · intro x y z h
    simp [Composition.get_offset, h]
  · rw [Composition.get_offset]
    match hc : c.get_center with
    | .error e => simp
    | .ok (x, y, z) => simp
  · intro x y z
    constructor
    · intro hok
      rw [Composition.get_center] at hok
      match he : c.composition.inner.entries with
      | none => rw [he] at hok; simp at hok
      | some entries =>
          simp only [he] at hok
          refine ⟨entries, rfl, ?_⟩
          split at hok
          · rename_i heq
            simp only [Except.ok.injEq, Prod.mk.injEq] at hok
            obtain ⟨hx, hy, hz⟩ := hok
            subst hx; subst hy; subst hz
            exact heq
          · simp at hok
    · rintro ⟨entries', he', hl⟩
      simp [Composition.get_center, he', hl]

end Laat

namespace Laat

/-- C6 witness: the total offset of `c6Comp` is the component-wise sum. -/
theorem get_offset_spec_witness :
    c6Comp.get_offset = .ok (100 + 5, 200 + 9, 7 + 3) :=
  (get_offset_spec c6Comp).1 100 200 7
    (by simp [c6Comp, Composition.get_center, lastLookup, ConfigClass.entries])

/-- C7: merging composition A and then composition B into the same mission
leaves every `Entities` binding of the `Mission` class equal to B's offset
item list packaged as a fresh class (parent `"Mission"`, flags cleared) —
replacement, not concatenation — for any pair of `HashMap` iteration
orders. -/
theorem merge_composition_replaces_entities
    (ord1 ord2 : EntryList → EntryList)
    (hord1 : ∀ l : EntryList, (ord1 l).Perm l)
    (hord2 : ∀ l : EntryList, (ord2 l).Perm l)
    (m : Mission) (A B : Composition) (itemsB : EntryList)
    (hB : B.get_offseted_items = .ok itemsB) :
    ∀ top,
      ((Mission.merge_composition ord2
          (Mission.merge_composition ord1 m A).2 B).2).sqm.inner.entries = some top →
      ∀ mc ∈ top, mc.1 = "Mission" →
        ∀ p ext del l, mc.2 = ConfigEntry.ClassEntry (.mk p ext del (some l)) →
          ("Entities", ConfigEntry.ClassEntry (.mk "Mission" false false (some itemsB))) ∈ l ∧
          ∀ e, ("Entities", e) ∈ l →
            e = ConfigEntry.ClassEntry (.mk "Mission" false false (some itemsB)) :=
  merge_sets_entities ord2 hord2 (Mission.merge_composition ord1 m A).2 B itemsB hB

/-- C7 witness: after merging `mkComposition itemsA` and then
`mkComposition itemsB` into `exMission` (both with the identity iteration
order), the `Mission` class's entries hold exactly one `Entities` binding
and it carries `itemsB`. -/
theorem merge_composition_replaces_entities_witness :
    ("Entities", c7Entities) ∈ c7MissionEntries ∧
    ∀ e, ("Entities", e) ∈ c7MissionEntries → e = c7Entities :=
  merge_composition_replaces_entities id id (fun l => List.Perm.refl l)
    (fun l => List.Perm.refl l) exMission (mkComposition (some itemsA))
    (mkComposition (some itemsB)) itemsB
    (by simp [mkComposition, itemsB, Composition.get_offseted_items, Composition.get_offset,
      Composition.get_center, lastLookup, offset_classes, ConfigClass.entries])
    [("Mission", .ClassEntry (.mk "" false false (some c7MissionEntries)))]
    (by simp [exMission, mkComposition, itemsA, itemsB, c7MissionEntries, c7Entities,
      Mission.merge_composition, mergeTop, hashMapOfList, assocInsert,
      Composition.get_offseted_items, Composition.get_offset, Composition.get_center,
      lastLookup, offset_classes, ConfigClass.entries, ConfigClass.parent,
      ConfigClass.is_external, ConfigClass.is_deletion])
    ("Mission", .ClassEntry (.mk "" false false (some c7MissionEntries)))
    (by simp) rfl "" false false c7MissionEntries rfl

/-- C8: when offset-item extraction fails, `merge_composition` returns that
error and the mission is returned exactly in its pre-merge state (the `?`
returns before any mutation of the tree). -/
theorem merge_composition_error_keeps_mission (ord : EntryList → EntryList)
    (m : Mission) (c : Composition) (e : MErr)
    (h : c.get_offseted_items = .error e) :
    Mission.merge_composition ord m c = (.error e, m) := by
  simp [Mission.merge_composition, h]

/-- C8 witness: a composition whose `items` class has no entry list fails
extraction, and the merge returns the untouched mission. -/
theorem merge_composition_error_keeps_mission_witness :
    Mission.merge_composition id exMission (mkComposition none) =
      (.error (.missing "Failed to get offseted items"), exMission) :=
  merge_composition_error_keeps_mission id exMission (mkComposition none)
    (.missing "Failed to get offseted items")
    (by simp [mkComposition, Composition.get_offseted_items, lastLookup, ConfigClass.entries])

/-- C9: the derived class name is `"{prefix}_{map_name}{mission_name}"` and
the qualified name is `"{class_name}.{map_name}"`, pure functions of the
three fields; in particular prefix `RZ`, map `Altis`, mission `Zeus` give
`RZ_AltisZeus` and `RZ_AltisZeus.Altis`. -/
theorem class_name_deterministic (p mapn mn : String) (sqm : Config) :
    Mission.class_name ⟨mapn, mn, p, sqm⟩ = p ++ "_" ++ mapn ++ mn ∧
    Mission.qualified_name ⟨mapn, mn, p, sqm⟩ = p ++ "_" ++ mapn ++ mn ++ "." ++ mapn ∧
    Mission.class_name ⟨"Altis", "Zeus", "RZ", sqm⟩ = "RZ_AltisZeus" ∧
    Mission.qualified_name ⟨"Altis", "Zeus", "RZ", sqm⟩ = "RZ_AltisZeus.Altis" := by
  refine ⟨rfl, rfl, ?_, ?_⟩ <;> rfl

/-- C10: mission creation keeps exactly the targets whose generation
succeeded, in input order: it distributes over list append, a failing
target contributes nothing, and in a three-target run whose second target
fails the result is exactly the first and third missions. -/
theorem create_missions_drops_failed_targets (gen : String → Except String Mission)
    (maps1 maps2 : List String) (a b c : String) (ma mc : Mission) (eb : String)
    (ha : gen a = .ok ma) (hb : gen b = .error eb) (hc : gen c = .ok mc) :
    create_missions gen (maps1 ++ maps2) =
      create_missions gen maps1 ++ create_missions gen maps2 ∧
    create_missions gen [a, b, c] = [ma, mc] := by
  constructor
  · simp [create_missions]
  · simp [create_missions, ha, hb, hc, Except.toOption]

/-- C10 witness: of the three targets `A`, `Bad`, `C` only the second is
dropped, and creation distributes over append. -/
theorem create_missions_drops_failed_targets_witness :
    create_missions c10Gen (["A"] ++ ["Bad", "C"]) =
      create_missions c10Gen ["A"] ++ create_missions c10Gen ["Bad", "C"] ∧
    create_missions c10Gen ["A", "Bad", "C"] =
      [⟨"A", "Zeus", "RZ", ⟨.mk "" false false none⟩⟩,
       ⟨"C", "Zeus", "RZ", ⟨.mk "" false false none⟩⟩] :=
  create_missions_drops_failed_targets c10Gen ["A"] ["Bad", "C"] "A" "Bad" "C"
    ⟨"A", "Zeus", "RZ", ⟨.mk "" false false none⟩⟩
    ⟨"C", "Zeus", "RZ", ⟨.mk "" false false none⟩⟩
    "malformed scaffold" (by simp [c10Gen]) (by simp [c10Gen]) (by simp [c10Gen])

end Laat
